import Mathlib

/-!
# Verification of the binomial-lattice pricing routines

Shallow embedding of the repository's pricing code (short-rate lattices,
Arrow-Debreu elementary prices, zero-coupon bonds and the term structure,
CRR option pricing, swap and swaption pricing).  The numeric definitions are
polymorphic over a linear ordered field so that they can be used at `ℚ`
(exact arithmetic, standing in for the source's floats) and at `ℝ` where a
real k-th root is taken (`term_structure`).

Lattices are triangular arrays stored as `(n+1) × (n+1)` zero-initialised
grids in the source; we embed them as total functions `ℕ → ℕ → K` where an
entry the source never writes keeps its initial value `0`.  Backward
inductions (`for i in range(n-1,-1,-1)`) are embedded by recursion on the
number of steps remaining before the terminal row ("countdown" index `m`,
so the row being filled is `i = n - m`).
-/

section Defs

variable {K : Type*} [LinearOrderedField K]

/-- The binomial short-rate lattice (source function `short_rate`):
`rate[0,0] = r_0`; for `i ≥ 1`: `rate[i,0] = rate[i-1,0]*d` and
`rate[i,j] = rate[i-1,j-1]*u` for `1 ≤ j ≤ i`.  Entries above the diagonal
(`j > i`) are never written and stay `0`.  The source's size argument `n`
only fixes the array dimensions, never the value of an in-range entry, so
it is not a parameter here. -/
def short_rate (r0 u d : K) : ℕ → ℕ → K
  | 0, 0 => r0
  | 0, _ + 1 => 0
  | i + 1, 0 => short_rate r0 u d i 0 * d
  | i + 1, j + 1 => if j + 1 ≤ i + 1 then short_rate r0 u d i j * u else 0

/-- The stock-price lattice (source function `stock_lattice`), the same
recursion as `short_rate` started from `S_0`. -/
def stock_lattice (S0 u d : K) : ℕ → ℕ → K
  | 0, 0 => S0
  | 0, _ + 1 => 0
  | i + 1, 0 => stock_lattice S0 u d i 0 * d
  | i + 1, j + 1 => if j + 1 ≤ i + 1 then stock_lattice S0 u d i j * u else 0

/-- Arrow-Debreu elementary prices (source function `elementary_prices`).
The source sets `s = short_rate(r_0,n,u,d)/100.0`, `e[0,0] = 1`, and for
`i ≥ 1`: column 0 via `e[i,0] = e[i-1,0]/(2(1+s[i-1,0]))` (written twice,
by two loops that assign identical values, the second overwriting the
first), interior entries `0 < j < i` via
`e[i,j] = e[i-1,j-1]/(2(1+s[i-1,j-1])) + e[i-1,j]/(2(1+s[i-1,j]))`
(the `i > j` branch), and the diagonal `j = i` via
`e[i,i] = e[i-1,i-1]/(2(1+s[i-1,i-1]))` (the `else` branch).  Entries with
`j > i` are never written and stay `0`. -/
def elementary_prices (r0 u d : K) : ℕ → ℕ → K
  | 0, 0 => 1
  | 0, _ + 1 => 0
  | i + 1, 0 =>
      elementary_prices r0 u d i 0 / (2 * (1 + short_rate r0 u d i 0 / 100))
  | i + 1, j + 1 =>
      if j + 1 < i + 1 then
        elementary_prices r0 u d i j / (2 * (1 + short_rate r0 u d i j / 100))
          + elementary_prices r0 u d i (j + 1)
              / (2 * (1 + short_rate r0 u d i (j + 1) / 100))
      else if j + 1 = i + 1 then
        elementary_prices r0 u d i j / (2 * (1 + short_rate r0 u d i j / 100))
      else 0

/-- Row sum of the elementary-price lattice at time step `k`: the source's
`np.sum(e_prices, axis=1)[k]` over the `(k+1) × (k+1)` array built by
`elementary_prices(r_0,k,u,d)`, i.e. columns `0 … k` of row `k`. -/
def elementary_row_sum (r0 u d : K) (k : ℕ) : K :=
  ∑ j in Finset.range (k + 1), elementary_prices r0 u d k j

/-- Zero-coupon bond price by forward equations (source function
`zcb_price_forward`): `fv * np.sum(elementary_prices(r_0,k,u,d),axis=1)[k]`.
The face value `fv` defaults to `100` at every call site of the source. -/
def zcb_price_forward (k : ℕ) (r0 u d fv : K) : K :=
  fv * elementary_row_sum r0 u d k

/-- Terminal option payoff, as assigned by the loop over the terminal row of
`binomial_tree`: `max(0, S-K)` when `PutCall == "Call"`, `max(0, K-S)` when
`PutCall == "Put"`; any other tag leaves the zero-initialised entry at `0`. -/
def opt_payoff (pc : String) (S strike : K) : K :=
  if pc = "Call" then max 0 (S - strike)
  else if pc = "Put" then max 0 (strike - S)
  else 0

/-- The CRR risk-neutral probability of `binomial_tree`:
`q = ((1.0 + r_f) - d)/(u - d)`. -/
def rn_prob (r_f u d : K) : K := ((1 + r_f) - d) / (u - d)

/-- European backward induction of `binomial_tree` (`Type == "E"`):
`euro_val n … m j` is `option_price[n-m, j]`, so `m = 0` is the terminal row
`option_price[n,j] = payoff(stock_price[n,j])` and the step case is
`option_price[i,j] = (1/(1+r_f))*(q*option_price[i+1,j+1]
+ (1-q)*option_price[i+1,j])` with `i = n-(m+1)`. -/
def euro_val (n : ℕ) (r_f S0 strike u d : K) (pc : String) : ℕ → ℕ → K
  | 0, j => opt_payoff pc (stock_lattice S0 u d n j) strike
  | m + 1, j =>
      (1 / (1 + r_f)) *
        (rn_prob r_f u d * euro_val n r_f S0 strike u d pc m (j + 1)
          + (1 - rn_prob r_f u d) * euro_val n r_f S0 strike u d pc m j)

/-- American backward induction of `binomial_tree` (`Type == "A"`):
as `euro_val` but each interior node takes
`max(0, intrinsic, continuation)` (written `max (max 0 intrinsic) cont`),
where the intrinsic value reads `stock_price[i,j]` at `i = n-(m+1)`.  The
two payoff branches are guarded by `PutCall`; an unrecognised tag performs
no assignment, leaving the zero-initialised entry at `0`. -/
def amer_val (n : ℕ) (r_f S0 strike u d : K) (pc : String) : ℕ → ℕ → K
  | 0, j => opt_payoff pc (stock_lattice S0 u d n j) strike
  | m + 1, j =>
      if pc = "Put" then
        max (max 0 (strike - stock_lattice S0 u d (n - (m + 1)) j))
          ((1 / (1 + r_f)) *
            (rn_prob r_f u d * amer_val n r_f S0 strike u d pc m (j + 1)
              + (1 - rn_prob r_f u d) * amer_val n r_f S0 strike u d pc m j))
      else if pc = "Call" then
        max (max 0 (stock_lattice S0 u d (n - (m + 1)) j - strike))
          ((1 / (1 + r_f)) *
            (rn_prob r_f u d * amer_val n r_f S0 strike u d pc m (j + 1)
              + (1 - rn_prob r_f u d) * amer_val n r_f S0 strike u d pc m j))
      else 0

/-- The CRR option pricer (source function `binomial_tree`), returning
`option_price[0,0]`.  With `Type == "E"` or `"A"` this is the root of the
corresponding backward induction; with any other tag neither backward loop
runs, so the function returns the zero-initialised root — except when
`n = 0`, where the root coincides with the terminal row already filled by
the payoff loop. -/
def binomial_tree (n : ℕ) (r_f S0 strike u d : K) (pc ty : String) : K :=
  if ty = "E" then euro_val n r_f S0 strike u d pc n 0
  else if ty = "A" then amer_val n r_f S0 strike u d pc n 0
  else if n = 0 then opt_payoff pc (stock_lattice S0 u d 0 0) strike
  else 0

/-- Backward induction of the swap pricer (source function `swap_price`,
also the array-returning variant used by `swaption_price`).  The rate
lattice is `short_rate(r_0, n-1, u, d)/100`; `nm1` stands for its last row
index `n-1`.  `swap_node fixed r0 u d nm1 m j` is `swap_price[nm1-m, j]`:
the terminal row is `swap_price[n-1,i] = (rate[n-1,i] - k/100)/(1+rate[n-1,i])`
and the step case is `swap_price[i,j] = (1/(1+rate[i,j]))*(q*swap_price[i+1,j+1]
+ (1-q)*swap_price[i+1,j] + (rate[i,j] - k/100))` with `q = 0.5` and
`i = nm1-(m+1)`. -/
def swap_node (fixed r0 u d : K) (nm1 : ℕ) : ℕ → ℕ → K
  | 0, j =>
      (short_rate r0 u d nm1 j / 100 - fixed / 100)
        / (1 + short_rate r0 u d nm1 j / 100)
  | m + 1, j =>
      (1 / (1 + short_rate r0 u d (nm1 - (m + 1)) j / 100)) *
        ((1 / 2) * swap_node fixed r0 u d nm1 m (j + 1)
          + (1 - 1 / 2) * swap_node fixed r0 u d nm1 m j
          + (short_rate r0 u d (nm1 - (m + 1)) j / 100 - fixed / 100))

/-- The scalar swap pricer (source function `swap_price` of the swap
module): returns `swap_price[0,0] * p`.  The root `swap_price[0,0]` is the
node at time `0`, i.e. countdown `n-1` from the terminal row.  The source
indexes a `n × n` array, so it presupposes `n ≥ 1`. -/
def swap_price (p fixed r0 : K) (n : ℕ) (u d : K) : K :=
  swap_node fixed r0 u d (n - 1) (n - 1) 0 * p

/-- Backward induction of the swaption pricer (source function
`swaption_price`).  The underlying swap lattice is
`s_price_arr = swap_price(1.0, r_f, r_0, n, u, d)` (the array-returning
swap pricer, whose notional argument is itself unused), and the swaption's
own rate lattice is `short_rate(r_0, n_o, u, d)/100`.
`swaption_node … m j` is `swaption_price[n_o - m, j]`: the terminal row is
`swaption_price[n_o,i] = max(s_price_arr[n_o,i], 0)` — the swap value at
time `n_o`, i.e. `swap_node` at countdown `(n-1) - n_o` — and the step case
discounts at the node's own short rate with `q = 0.5`. -/
def swaption_node (r_f r0 u d : K) (n_o n : ℕ) : ℕ → ℕ → K
  | 0, j => max (swap_node r_f r0 u d (n - 1) (n - 1 - n_o) j) 0
  | m + 1, j =>
      (1 / (1 + short_rate r0 u d (n_o - (m + 1)) j / 100)) *
        ((1 / 2) * swaption_node r_f r0 u d n_o n m (j + 1)
          + (1 - 1 / 2) * swaption_node r_f r0 u d n_o n m j)

/-- The swaption pricer (source function `swaption_price`), returning
`swaption_price[0,0]`.  Its first parameter `k` ("the strike of the
swaption") is declared but never read by the source body, which is kept
verbatim here. -/
def swaption_price (k r_f r0 : K) (n_o n : ℕ) (u d : K) : K :=
  swaption_node r_f r0 u d n_o n n_o 0

end Defs

/-- The term-structure spot rate for maturity `k` (the body of the second
loop of source function `term_structure`):
`spot_rates[i] = (100.0/zcb_price_arr[i])**(1/i) - 1.0`, with
`zcb_price_arr[i] = zcb_price_forward(i, r_0, u, d)` at the default face
value `100`.  The real exponent makes this `ℝ`-valued (`Real.rpow`). -/
noncomputable def spot_rate_fwd (r0 u d : ℝ) (k : ℕ) : ℝ :=
  (100 / zcb_price_forward k r0 u d 100) ^ ((1 : ℝ) / k) - 1

/-- The term structure of spot rates (source function `term_structure`):
the array `spot_rates[1:]`, i.e. the list of `spot_rate_fwd` values at
maturities `1 … n`. -/
noncomputable def term_structure (r0 : ℝ) (n : ℕ) (u d : ℝ) : List ℝ :=
  (List.range n).map (fun i => spot_rate_fwd r0 u d (i + 1))

/-- Python exceptions raised by the pricing code: `ZeroDivisionError` from
a float division with zero divisor, and `ValueError` from assigning the
string `''` into a numpy float array. -/
inductive PyExn where
  | zeroDivisionError : PyExn
  | valueError : PyExn
  deriving DecidableEq

/-- `binomial_tree` with Python's failure behaviour made explicit.  The
body performs two (families of) float divisions: `q = ((1.0+r_f)-d)/(u-d)`,
evaluated first on every call and raising `ZeroDivisionError` when
`u - d = 0`; and the per-node discount `1/(1+r_f)`, evaluated iff at least
one backward-induction node is processed — `n ≥ 1` and a recognised
exercise tag, where under tag `"A"` the division sits inside the
`"Put"`/`"Call"` branches and so also needs a recognised option tag.
Otherwise the call returns normally with the value of `binomial_tree`. -/
def binomial_tree_checked (n : ℕ) (r_f S0 strike u d : ℚ) (pc ty : String) :
    Except PyExn ℚ :=
  if u - d = 0 then Except.error PyExn.zeroDivisionError
  else if 1 + r_f = 0 ∧ 1 ≤ n ∧
      (ty = "E" ∨ (ty = "A" ∧ (pc = "Put" ∨ pc = "Call"))) then
    Except.error PyExn.zeroDivisionError
  else Except.ok (binomial_tree n r_f S0 strike u d pc ty)

/-- The scalar swap pricer with Python's failure behaviour made explicit.
The backward loops of the source (`for i in range(n-2,-1,-1)`, inner
`for j in range(i+1)`) contain the branch `if i < j: swap_price[i,j] = ''`,
which — if ever executed — would raise `ValueError` (assigning a string
into a numpy float array).  So the call raises iff some visited index pair
`(i, j)`, `i ∈ {0,…,n-2}`, `j ∈ {0,…,i}`, satisfies `i < j`; otherwise it
returns the value of `swap_price`.  (The divisions in the body are numpy
scalar operations, which do not raise on a zero divisor.) -/
def swap_price_checked (p fixed r0 : ℚ) (n : ℕ) (u d : ℚ) : Except PyExn ℚ :=
  if (List.range (n - 1)).any
      (fun i => (List.range (i + 1)).any (fun j => decide (i < j))) then
    Except.error PyExn.valueError
  else Except.ok (swap_price p fixed r0 n u d)

/-- Modelled from the spec: "All rate inputs are accepted as percentages
(e.g., 5.0 for 5%) and internally normalized to decimals (÷100) before use
in discounting formulas."  The option pricer as the spec describes it,
with its risk-free rate normalised from percent before any use — to be
compared with the source's `binomial_tree`, which uses `r_f` as given. -/
def binomial_tree_pct (n : ℕ) (r_f S0 strike u d : ℚ) (pc ty : String) : ℚ :=
  binomial_tree n (r_f / 100) S0 strike u d pc ty

/-! ## Helper lemmas -/

section Helpers

variable {K : Type*} [LinearOrderedField K]

/-- Every entry of a short-rate lattice built from non-negative inputs is
non-negative (unwritten entries are `0`). -/
lemma short_rate_nonneg (r0 u d : K) (hr : 0 ≤ r0) (hu : 0 ≤ u) (hd : 0 ≤ d) :
    ∀ i j, 0 ≤ short_rate r0 u d i j := by
  intro i
  induction i with
  | zero =>
      intro j
      cases j with
      | zero => exact hr
      | succ j => simp [short_rate]
  | succ i ih =>
      intro j
      cases j with
      | zero =>
          simp only [short_rate]
          exact mul_nonneg (ih 0) hd
      | succ j =>
          simp only [short_rate]
          split
          · exact mul_nonneg (ih j) hu
          · exact le_rfl

/-- Every elementary price is non-negative when every short rate is. -/
lemma elementary_prices_nonneg (r0 u d : K)
    (hs : ∀ i j, 0 ≤ short_rate r0 u d i j) :
    ∀ k j, 0 ≤ elementary_prices r0 u d k j := by
  have hden : ∀ i j, (0 : K) ≤ 2 * (1 + short_rate r0 u d i j / 100) := by
    intro i j
    have := div_nonneg (hs i j) (by norm_num : (0:K) ≤ 100)
    nlinarith
  intro k
  induction k with
  | zero =>
      intro j
      cases j with
      | zero => simp [elementary_prices]
      | succ j => simp [elementary_prices]
  | succ k ih =>
      intro j
      cases j with
      | zero =>
          simp only [elementary_prices]
          exact div_nonneg (ih 0) (hden k 0)
      | succ j =>
          simp only [elementary_prices]
          split
          · exact add_nonneg (div_nonneg (ih j) (hden k j))
              (div_nonneg (ih (j + 1)) (hden k (j + 1)))
          · split
            · exact div_nonneg (ih j) (hden k j)
            · exact le_rfl

/-- Summing a row whose first entry is `g 0`, last entry is `g k`, and
interior entries are `g (j-1) + g j`, gives twice the sum of `g`. -/
lemma sum_pascal_like {g h : ℕ → K} (k : ℕ)
    (h0 : h 0 = g 0) (hdiag : h (k + 1) = g k)
    (hint : ∀ j, j < k → h (j + 1) = g j + g (j + 1)) :
    ∑ j in Finset.range (k + 2), h j = 2 * ∑ j in Finset.range (k + 1), g j := by
  have hA : ∑ j in Finset.range (k + 1), g j
      = ∑ j in Finset.range k, g j + g k := Finset.sum_range_succ g k
  have hB : ∑ j in Finset.range (k + 1), g j
      = (∑ j in Finset.range k, g (j + 1)) + g 0 := Finset.sum_range_succ' g k
  rw [Finset.sum_range_succ', Finset.sum_range_succ, h0, hdiag]
  rw [Finset.sum_congr rfl (fun j hj => hint j (Finset.mem_range.mp hj)),
    Finset.sum_add_distrib]
  rw [two_mul]
  nth_rewrite 1 [hA]
  nth_rewrite 1 [hB]
  ring

/-- The elementary prices sum to `1` at time step `0`. -/
lemma elementary_row_sum_zero (r0 u d : K) : elementary_row_sum r0 u d 0 = 1 := by
  simp [elementary_row_sum, elementary_prices]

/-- Forward-equation row-sum recursion: each elementary price `e[k,j]`
feeds `e[k,j]/(2(1+s[k,j]))` into exactly two entries of row `k+1`, so the
row sum at `k+1` is the sum of the one-period-discounted row at `k`. -/
lemma elementary_row_sum_succ (r0 u d : K) (k : ℕ) :
    elementary_row_sum r0 u d (k + 1)
      = ∑ j in Finset.range (k + 1),
          elementary_prices r0 u d k j / (1 + short_rate r0 u d k j / 100) := by
  have main :
      ∑ j in Finset.range (k + 2), elementary_prices r0 u d (k + 1) j
        = 2 * ∑ j in Finset.range (k + 1),
            elementary_prices r0 u d k j
              / (2 * (1 + short_rate r0 u d k j / 100)) := by
    apply sum_pascal_like
    · simp only [elementary_prices]
    · simp [elementary_prices]
    · intro j hj
      simp only [elementary_prices]
      rw [if_pos (by omega : j + 1 < k + 1)]
  rw [elementary_row_sum, main, Finset.mul_sum]
  refine Finset.sum_congr rfl (fun j _ => ?_)
  rw [← mul_div_assoc, mul_div_mul_left _ _ (two_ne_zero)]

end Helpers

/-! ## Claims -/

/-- C1: for every initial percent rate `r_0`, every `n ≥ 0` and factors
`u`, `d`, the elementary-price function computes `e[0,0] = 1` and, for
every `i` with `1 ≤ i ≤ n`: `e[i,0] = e[i-1,0]/(2(1+rate[i-1,0]))`,
`e[i,i] = e[i-1,i-1]/(2(1+rate[i-1,i-1]))`, and for every interior
`0 < j < i`, `e[i,j] = e[i-1,j-1]/(2(1+rate[i-1,j-1]))
+ e[i-1,j]/(2(1+rate[i-1,j]))`, where `rate` is the short-rate lattice
value divided by `100`. -/
theorem C1_elementary_forward_recursion (r0 u d : ℚ) :
    elementary_prices r0 u d 0 0 = 1 ∧
      ∀ n i, 1 ≤ i → i ≤ n →
        (elementary_prices r0 u d i 0
            = elementary_prices r0 u d (i - 1) 0
                / (2 * (1 + short_rate r0 u d (i - 1) 0 / 100))
          ∧ elementary_prices r0 u d i i
              = elementary_prices r0 u d (i - 1) (i - 1)
                  / (2 * (1 + short_rate r0 u d (i - 1) (i - 1) / 100))
          ∧ ∀ j, 0 < j → j < i →
              elementary_prices r0 u d i j
                = elementary_prices r0 u d (i - 1) (j - 1)
                    / (2 * (1 + short_rate r0 u d (i - 1) (j - 1) / 100))
                  + elementary_prices r0 u d (i - 1) j
                      / (2 * (1 + short_rate r0 u d (i - 1) j / 100))) := by
  refine ⟨by simp [elementary_prices], ?_⟩
  intro n i hi _
  obtain ⟨i', rfl⟩ : ∃ i', i = i' + 1 := ⟨i - 1, by omega⟩
  simp only [Nat.add_sub_cancel]
  refine ⟨by simp only [elementary_prices], by simp [elementary_prices], ?_⟩
  intro j hj0 hji
  obtain ⟨j', rfl⟩ : ∃ j', j = j' + 1 := ⟨j - 1, by omega⟩
  simp only [Nat.add_sub_cancel]
  simp only [elementary_prices]
  rw [if_pos hji]

/-- Witness for C1: the interior forward equation at `i = 2`, `j = 1` on a
concrete lattice. -/
theorem C1_elementary_forward_recursion_witness :
    elementary_prices (6:ℚ) (5/4) (9/10) 2 1
      = elementary_prices (6:ℚ) (5/4) (9/10) 1 0
          / (2 * (1 + short_rate (6:ℚ) (5/4) (9/10) 1 0 / 100))
        + elementary_prices (6:ℚ) (5/4) (9/10) 1 1
            / (2 * (1 + short_rate (6:ℚ) (5/4) (9/10) 1 1 / 100)) :=
  (((C1_elementary_forward_recursion 6 (5/4) (9/10)).2 2 2
      (by norm_num) (le_refl 2)).2.2) 1 (by norm_num) (by norm_num)

/-- C2: for every maturity `k ≥ 1`, initial percent rate `r_0`, factors
`u`, `d` and face value `fv`, `zcb_price_forward(k, r_0, u, d, fv)` equals
`fv` times the sum over all states `j` of the elementary prices at time
step `k`. -/
theorem C2_zcb_is_elementary_sum (k : ℕ) (hk : 1 ≤ k) (r0 u d fv : ℚ) :
    zcb_price_forward k r0 u d fv
      = fv * ∑ j in Finset.range (k + 1), elementary_prices r0 u d k j := rfl

/-- Witness for C2 at maturity `k = 2` on a concrete lattice. -/
theorem C2_zcb_is_elementary_sum_witness :
    zcb_price_forward 2 (6:ℚ) (5/4) (9/10) 100
      = 100 * ∑ j in Finset.range 3, elementary_prices (6:ℚ) (5/4) (9/10) 2 j :=
  C2_zcb_is_elementary_sum 2 (by norm_num) 6 (5/4) (9/10) 100

/-- C5: for every lattice all of whose short rates are non-negative, the
sum over states `j` of the elementary prices at time step `k` (equivalently
the zero-coupon bond price of maturity `k` with face value `1`) equals `1`
at `k = 0` and is non-increasing as the maturity `k` increases. -/
theorem C5_elementary_sum_nonincreasing (r0 u d : ℚ)
    (hs : ∀ i j, 0 ≤ short_rate r0 u d i j) :
    elementary_row_sum r0 u d 0 = 1 ∧
      ∀ k, elementary_row_sum r0 u d (k + 1) ≤ elementary_row_sum r0 u d k := by
  refine ⟨elementary_row_sum_zero r0 u d, ?_⟩
  intro k
  rw [elementary_row_sum_succ, elementary_row_sum]
  refine Finset.sum_le_sum (fun j _ => ?_)
  exact div_le_self (elementary_prices_nonneg r0 u d hs k j)
    (le_add_of_nonneg_right (div_nonneg (hs k j) (by norm_num)))

/-- Witness for C5 on a concrete non-negative lattice: the discounting
step from maturity `0` to maturity `1`. -/
theorem C5_elementary_sum_nonincreasing_witness :
    elementary_row_sum (6:ℚ) (5/4) (9/10) 1 ≤ elementary_row_sum (6:ℚ) (5/4) (9/10) 0 :=
  (C5_elementary_sum_nonincreasing 6 (5/4) (9/10)
      (short_rate_nonneg 6 (5/4) (9/10) (by norm_num) (by norm_num) (by norm_num))).2 0

/-- C10: the swaption price never depends on the strike parameter `k`: the
source body of `swaption_price` never reads `k` (the terminal payoff is
`max(underlying swap price, 0)` regardless of `k`), so any two strikes
give the same price. -/
theorem C10_swaption_ignores_strike (k1 k2 r_f r0 : ℚ) (n_o n : ℕ) (u d : ℚ) :
    swaption_price k1 r_f r0 n_o n u d = swaption_price k2 r_f r0 n_o n u d := rfl

/-- Under a non-negative discount factor and a risk-neutral probability in
`[0,1]`, every node of the American backward induction dominates the
corresponding European node (they share the terminal row, and the American
node takes a `max` over its continuation value). -/
lemma euro_val_le_amer_val (n : ℕ) (r_f S0 strike u d : ℚ) (pc : String)
    (hr : 0 < 1 + r_f) (hq0 : 0 ≤ rn_prob r_f u d) (hq1 : rn_prob r_f u d ≤ 1)
    (hpc : pc = "Call" ∨ pc = "Put") :
    ∀ m j, euro_val n r_f S0 strike u d pc m j
      ≤ amer_val n r_f S0 strike u d pc m j := by
  intro m
  induction m with
  | zero =>
      intro j
      simp only [euro_val, amer_val]
      exact le_rfl
  | succ m ih =>
      intro j
      have hcont :
          (1 / (1 + r_f)) *
              (rn_prob r_f u d * euro_val n r_f S0 strike u d pc m (j + 1)
                + (1 - rn_prob r_f u d) * euro_val n r_f S0 strike u d pc m j)
            ≤ (1 / (1 + r_f)) *
              (rn_prob r_f u d * amer_val n r_f S0 strike u d pc m (j + 1)
                + (1 - rn_prob r_f u d) * amer_val n r_f S0 strike u d pc m j) := by
        have h1 : (0:ℚ) ≤ 1 / (1 + r_f) := by positivity
        have h2 := mul_le_mul_of_nonneg_left (ih (j + 1)) hq0
        have h3 := mul_le_mul_of_nonneg_left (ih j)
          (by linarith : (0:ℚ) ≤ 1 - rn_prob r_f u d)
        exact mul_le_mul_of_nonneg_left (by linarith) h1
      rcases hpc with h | h
      · subst h
        simp only [euro_val, amer_val, if_true]
        exact le_trans hcont (le_max_right _ _)
      · subst h
        simp only [euro_val, amer_val, if_true]
        exact le_trans hcont (le_max_right _ _)

/-- Counterexample to C4 as stated: a parameter set satisfying every
validity constraint the spec lists for the option pricer (`n ≥ 0`,
`u, d > 0`, `u ≠ d`, a recognised option type) on which the American put
prices strictly below the European put — `n = 2`, `r_f = 0`, `S_0 = 1`,
`K = 8`, `u = 3`, `d = 2` gives American `7 < 8` European (the risk-neutral
probability `q = -1` lies outside `[0,1]`, so the backward induction is not
monotone). -/
theorem C4_counterexample :
    (0:ℚ) < 2 ∧ (0:ℚ) < 3 ∧ (2:ℚ) ≠ 3 ∧
      binomial_tree 2 (0:ℚ) 1 8 3 2 "Put" "A"
        < binomial_tree 2 (0:ℚ) 1 8 3 2 "Put" "E" := by
  refine ⟨by norm_num, by norm_num, by norm_num, ?_⟩
  have hA : binomial_tree 2 (0:ℚ) 1 8 3 2 "Put" "A" = 7 := by
    norm_num +decide [binomial_tree, amer_val, opt_payoff, rn_prob, stock_lattice]
  have hE : binomial_tree 2 (0:ℚ) 1 8 3 2 "Put" "E" = 8 := by
    norm_num +decide [binomial_tree, euro_val, opt_payoff, rn_prob, stock_lattice]
  rw [hA, hE]
  norm_num

/-- C4 amended: for every parameter set additionally satisfying the
no-arbitrage bounds `d ≤ 1 + r_f ≤ u` (so that the risk-neutral
probability `q = ((1+r_f)-d)/(u-d)` lies in `[0,1]`), with `0 < d < u` and
option type `"Call"` or `"Put"`, the American price returned by
`binomial_tree` with exercise style `"A"` is at least the European price
with style `"E"` on identical parameters. -/
theorem C4_american_ge_european (n : ℕ) (r_f S0 strike u d : ℚ) (pc : String)
    (hd : 0 < d) (hdu : d < u) (hdr : d ≤ 1 + r_f) (hru : 1 + r_f ≤ u)
    (hpc : pc = "Call" ∨ pc = "Put") :
    binomial_tree n r_f S0 strike u d pc "E"
      ≤ binomial_tree n r_f S0 strike u d pc "A" := by
  have hr : (0:ℚ) < 1 + r_f := lt_of_lt_of_le hd hdr
  have hq0 : 0 ≤ rn_prob r_f u d := div_nonneg (by linarith) (by linarith)
  have hq1 : rn_prob r_f u d ≤ 1 := by
    rw [rn_prob, div_le_one (by linarith)]
    linarith
  have key := euro_val_le_amer_val n r_f S0 strike u d pc hr hq0 hq1 hpc n 0
  have hE : binomial_tree n r_f S0 strike u d pc "E"
      = euro_val n r_f S0 strike u d pc n 0 := by
    rw [binomial_tree, if_pos rfl]
  have hA : binomial_tree n r_f S0 strike u d pc "A"
      = amer_val n r_f S0 strike u d pc n 0 := by
    rw [binomial_tree, if_neg (by decide : ¬ ("A" : String) = "E"), if_pos rfl]
  rw [hE, hA]
  exact key

/-- Witness for the amended C4 on the worked parameters of the source
(`n = 3`, `r_f = 1/100`, `S_0 = K = 100`, `u = 107/100`, `d = 100/107`). -/
theorem C4_american_ge_european_witness :
    binomial_tree 3 (1/100 : ℚ) 100 100 (107/100) (100/107) "Put" "E"
      ≤ binomial_tree 3 (1/100 : ℚ) 100 100 (107/100) (100/107) "Put" "A" :=
  C4_american_ge_european 3 (1/100) 100 100 (107/100) (100/107) "Put"
    (by norm_num) (by norm_num) (by norm_num) (by norm_num) (Or.inr rfl)

/-- Counterexample to C3 as stated: the option pricer `binomial_tree` does
not divide its risk-free rate by `100` before discounting.  At `n = 1`,
`r_f = 1`, `S_0 = K = 1`, `u = 2`, `d = 1`, a call priced by the source
gives `1/2` (treating `r_f = 1` as `100%`), while the percent-normalised
pricer described by the spec gives `1/101`. -/
theorem C3_counterexample :
    binomial_tree 1 (1:ℚ) 1 1 2 1 "Call" "E"
      ≠ binomial_tree_pct 1 (1:ℚ) 1 1 2 1 "Call" "E" := by
  have h1 : binomial_tree 1 (1:ℚ) 1 1 2 1 "Call" "E" = 1/2 := by
    norm_num +decide [binomial_tree, euro_val, opt_payoff, rn_prob, stock_lattice]
  have h2 : binomial_tree_pct 1 (1:ℚ) 1 1 2 1 "Call" "E" = 1/101 := by
    norm_num +decide [binomial_tree_pct, binomial_tree, euro_val, opt_payoff,
      rn_prob, stock_lattice]
  rw [h1, h2]
  norm_num

/-- C3 amended: the swap (and swaption) pricers do divide their short-rate
lattices and percent fixed rates by `100` — visible in `swap_node`, whose
every rate occurrence is `short_rate …/100` — but the option pricer
`binomial_tree` uses its risk-free rate `r_f` directly as a decimal:
the percent-convention pricer evaluated at `100·r_f` coincides with
`binomial_tree` at `r_f`, and the swap terminal payoff discounts at the
percent-normalised lattice rate. -/
theorem C3_rate_normalisation :
    (∀ (n : ℕ) (r_f S0 strike u d : ℚ) (pc ty : String),
        binomial_tree_pct n (100 * r_f) S0 strike u d pc ty
          = binomial_tree n r_f S0 strike u d pc ty) ∧
      ∀ (fixed r0 u d : ℚ) (nm1 j : ℕ),
        swap_node fixed r0 u d nm1 0 j
          = (short_rate r0 u d nm1 j / 100 - fixed / 100)
              / (1 + short_rate r0 u d nm1 j / 100) := by
  constructor
  · intro n r_f S0 strike u d pc ty
    rw [binomial_tree_pct, mul_div_cancel_left₀ _ (show (100:ℚ) ≠ 0 by norm_num)]
  · intro fixed r0 u d nm1 j
    simp only [swap_node]

/-- C7: for every call of the option pricer with `u = d`, the evaluation
fails — Python raises `ZeroDivisionError` from the division in
`q = ((1.0+r_f)-d)/(u-d)` (the spec's `DegenerateLattice` condition) —
rather than silently propagating a NaN into the returned price. -/
theorem C7_degenerate_lattice_fails (n : ℕ) (r_f S0 strike u d : ℚ)
    (pc ty : String) (h : u = d) :
    binomial_tree_checked n r_f S0 strike u d pc ty
      = Except.error PyExn.zeroDivisionError := by
  subst h
  rw [binomial_tree_checked, if_pos (by ring)]

/-- Witness for C7 on the source's worked parameters with `u = d`. -/
theorem C7_degenerate_lattice_fails_witness :
    binomial_tree_checked 3 (1/100 : ℚ) 100 100 (107/100) (107/100) "Put" "A"
      = Except.error PyExn.zeroDivisionError :=
  C7_degenerate_lattice_fails 3 (1/100) 100 100 (107/100) (107/100) "Put" "A" rfl

/-- Counterexample to C8 as stated: with an unrecognised option-type tag
and an unrecognised exercise-style tag, `binomial_tree` does not fail with
an `InvalidArgument` error — the call returns normally, with the
zero-initialised root, i.e. price `0`. -/
theorem C8_counterexample :
    binomial_tree_checked 1 (0:ℚ) 100 90 2 1 "Straddle" "X" = Except.ok 0 := by
  rw [binomial_tree_checked, if_neg (by norm_num), if_neg (by norm_num +decide)]
  rw [binomial_tree, if_neg (by decide), if_neg (by decide), if_neg (by decide)]

/-- C8 amended: for every option-type tag other than `"Call"`/`"Put"`
together with an exercise-style tag other than `"E"`/`"A"` (and `u ≠ d`, so
the call gets past the `q` division), `binomial_tree` raises no error and
returns the price `0`: the terminal payoff loop and both backward loops
skip all assignments, so the zero-initialised root is returned. -/
theorem C8_invalid_tags_silent_zero (n : ℕ) (r_f S0 strike u d : ℚ)
    (pc ty : String) (hud : u ≠ d)
    (hpc1 : pc ≠ "Call") (hpc2 : pc ≠ "Put")
    (hty1 : ty ≠ "E") (hty2 : ty ≠ "A") :
    binomial_tree_checked n r_f S0 strike u d pc ty = Except.ok 0 := by
  rw [binomial_tree_checked, if_neg (fun hc => hud (by linarith [sub_eq_zero.mp hc]))]
  rw [if_neg (by simp [hty1, hty2])]
  rw [binomial_tree, if_neg hty1, if_neg hty2]
  split
  · rw [opt_payoff, if_neg hpc1, if_neg hpc2]
  · rfl

/-- Witness for the amended C8 at concrete invalid tags. -/
theorem C8_invalid_tags_silent_zero_witness :
    binomial_tree_checked 2 (1/100 : ℚ) 100 90 2 (1/2) "Straddle" "Bermudan"
      = Except.ok 0 :=
  C8_invalid_tags_silent_zero 2 (1/100) 100 90 2 (1/2) "Straddle" "Bermudan"
    (by norm_num) (by decide) (by decide) (by decide) (by decide)

/-- C9: in `swap_price`, for every `n ≥ 1`, the branch guarded by `i < j`
(which assigns the string `''` to `swap_price[i,j]` and would raise a
`ValueError`) is never executed: every index pair visited by the backward
loops (`i` from `n-2` down to `0`, `j` from `0` to `i`) has `j ≤ i`, so the
call returns the guard-free value normally. -/
theorem C9_dead_branch_never_executed (p fixed r0 : ℚ) (n : ℕ) (u d : ℚ)
    (hn : 1 ≤ n) :
    swap_price_checked p fixed r0 n u d
      = Except.ok (swap_price p fixed r0 n u d) := by
  have hc : ¬ ((List.range (n - 1)).any
      (fun i => (List.range (i + 1)).any (fun j => decide (i < j))) = true) := by
    rw [List.any_eq_true]
    rintro ⟨i, hi, hcond⟩
    rw [List.any_eq_true] at hcond
    obtain ⟨j, hj, hlt⟩ := hcond
    rw [List.mem_range] at hj
    exact absurd (of_decide_eq_true hlt) (by omega)
  rw [swap_price_checked, if_neg hc]

/-- Witness for C9 on the source's worked swap parameters (scaled down to
`n = 3` periods). -/
theorem C9_dead_branch_never_executed_witness :
    swap_price_checked 100 5 (6:ℚ) 3 (5/4) (9/10)
      = Except.ok (swap_price 100 5 (6:ℚ) 3 (5/4) (9/10)) :=
  C9_dead_branch_never_executed 100 5 6 3 (5/4) (9/10) (by norm_num)

/-! ## Flat-lattice facts for the term structure -/

section Flat

variable {K : Type*} [LinearOrderedField K]

/-- With `u = d = 1` the short-rate lattice is flat: every in-range entry
equals the initial rate. -/
lemma short_rate_flat (r : K) : ∀ i j, j ≤ i → short_rate r 1 1 i j = r := by
  intro i
  induction i with
  | zero =>
      intro j hj
      interval_cases j
      rfl
  | succ i ih =>
      intro j hj
      cases j with
      | zero =>
          simp only [short_rate]
          rw [ih 0 (Nat.zero_le _), mul_one]
      | succ j =>
          simp only [short_rate]
          rw [if_pos hj, ih j (by omega), mul_one]

/-- On a flat lattice the elementary-price row sum contracts by one period
of discounting at each step. -/
lemma elementary_row_sum_flat_succ (r : K) (k : ℕ) :
    elementary_row_sum r 1 1 (k + 1) = elementary_row_sum r 1 1 k / (1 + r / 100) := by
  rw [elementary_row_sum_succ]
  rw [Finset.sum_congr rfl (fun j hj => by
    rw [short_rate_flat r k j (Nat.lt_succ_iff.mp (Finset.mem_range.mp hj))])]
  rw [elementary_row_sum, Finset.sum_div]

/-- Closed form of the flat-lattice row sum: `(1+r/100)^k · Σ_j e[k,j] = 1`. -/
lemma elementary_row_sum_flat (r : K) (h1 : (1 : K) + r / 100 ≠ 0) (k : ℕ) :
    (1 + r / 100) ^ k * elementary_row_sum r 1 1 k = 1 := by
  induction k with
  | zero => simp [elementary_row_sum_zero]
  | succ k ih =>
      rw [elementary_row_sum_flat_succ]
      calc (1 + r / 100) ^ (k + 1) * (elementary_row_sum r 1 1 k / (1 + r / 100))
          = (1 + r / 100) ^ k * elementary_row_sum r 1 1 k
              * ((1 + r / 100) / (1 + r / 100)) := by ring
        _ = (1 + r / 100) ^ k * elementary_row_sum r 1 1 k := by
              rw [div_self h1, mul_one]
        _ = 1 := ih

end Flat

/-- On a flat lattice with a positive percent rate `r`, the spot rate read
off the forward-equation ZCB price is exactly the decimal rate `r/100`. -/
lemma spot_rate_fwd_flat (r : ℝ) (hr : 0 < r) (k : ℕ) (hk : 1 ≤ k) :
    spot_rate_fwd r 1 1 k = r / 100 := by
  have hc : (0:ℝ) < 1 + r / 100 := by positivity
  have h1 : (1:ℝ) + r / 100 ≠ 0 := ne_of_gt hc
  have hpow : (0:ℝ) < (1 + r / 100) ^ k := pow_pos hc k
  have hS : elementary_row_sum r 1 1 k = 1 / (1 + r / 100) ^ k := by
    rw [eq_div_iff (ne_of_gt hpow), mul_comm]
    exact elementary_row_sum_flat r h1 k
  rw [spot_rate_fwd, zcb_price_forward, hS]
  have hbase : (100:ℝ) / (100 * (1 / (1 + r / 100) ^ k)) = (1 + r / 100) ^ k := by
    field_simp
    ring
  rw [hbase, ← Real.rpow_natCast (1 + r / 100) k, ← Real.rpow_mul (le_of_lt hc)]
  rw [mul_one_div_cancel (by positivity : (k:ℝ) ≠ 0), Real.rpow_one]
  ring

/-- Counterexample to C6 as stated: the spot rates returned by
`term_structure` are decimals, not percents.  With the flat percent rate
`r = 5` (`u = d = 1`, `n = 1`), the spot rate at maturity `1` is
`1/20 = 5/100`, not `5`. -/
theorem C6_counterexample : (term_structure (5:ℝ) 1 1 1).get? 0 ≠ some 5 := by
  have h : (term_structure (5:ℝ) 1 1 1).get? 0 = some (5/100) := by
    rw [term_structure]
    rw [List.get?_map, List.get?_range (by norm_num : 0 < 1)]
    rw [Option.map_some']
    rw [spot_rate_fwd_flat 5 (by norm_num) 1 le_rfl]
  rw [h]
  intro hcontra
  have := Option.some.inj hcontra
  norm_num at this

/-- C6 amended: for every constant percent rate `r > 0` and every `n ≥ 1`,
with `u = d = 1` (a flat short-rate lattice with value `r` at every node),
the spot rate produced by `term_structure(r, n, 1, 1)` equals the decimal
rate `r/100` exactly at every maturity `k` with `1 ≤ k ≤ n` (the returned
list stores maturity `k` at position `k-1`). -/
theorem C6_flat_term_structure (r : ℝ) (hr : 0 < r) (n k : ℕ)
    (hk1 : 1 ≤ k) (hkn : k ≤ n) :
    (term_structure r n 1 1).get? (k - 1) = some (r / 100) := by
  rw [term_structure]
  rw [List.get?_map, List.get?_range (by omega : k - 1 < n)]
  rw [Option.map_some']
  rw [(by omega : k - 1 + 1 = k), spot_rate_fwd_flat r hr k hk1]

/-- Witness for the amended C6 at `r = 5`, `n = 2`, `k = 1`. -/
theorem C6_flat_term_structure_witness :
    (term_structure (5:ℝ) 2 1 1).get? 0 = some (5 / 100) :=
  C6_flat_term_structure 5 (by norm_num) 2 1 le_rfl (by norm_num)
